import Mathlib

/-!
Shallow embedding of the retrieval and query-classification core of the CDP
support agent (`app/query_engine.py`): `QueryEngine.preprocess_query`,
`QueryEngine.is_how_to_question`, `QueryEngine.extract_cdp_name`,
`QueryEngine.search`, `QueryEngine.query`, `QueryEngine.load_index` and the
`CDPComparator` class (`is_comparison_question`, `extract_cdps_to_compare`,
`extract_feature_to_compare`, `compare_cdps`).

Python strings are modelled as `List Char`; Python floats (similarity scores)
as rationals; a raised exception (`IndexError` on out-of-range subscripts,
load failures) is modelled by `Option`, with `none` for a raise.  The regular
expressions used by the classifier fall in a small fragment (literal text,
`\s+`, `.+`, and alternations of literal words) which is embedded as lists of
tokens matched by an exact backtracking matcher.
-/

namespace CDP

/-- The characters matched by the regex class `\s` (ASCII fragment). -/
def isWsChar (c : Char) : Bool :=
  c = ' ' || c = Char.ofNat 9 || c = Char.ofNat 10 || c = Char.ofNat 13 ||
    c = Char.ofNat 11 || c = Char.ofNat 12

/-- Python `str.lower` (ASCII fragment). -/
def toLowerStr (s : List Char) : List Char :=
  s.map Char.toLower

/-- The apostrophe character, used in several user-facing messages. -/
def apos : Char := Char.ofNat 39

/-- Python substring test `needle in hay`. -/
def substrIn (needle : List Char) : List Char → Bool
  | [] => List.isPrefixOf needle []
  | c :: cs => List.isPrefixOf needle (c :: cs) || substrIn needle cs

/-- Python `str.strip()` (ASCII whitespace fragment). -/
def pyStrip (s : List Char) : List Char :=
  ((s.dropWhile (fun c => isWsChar c)).reverse.dropWhile (fun c => isWsChar c)).reverse

/-- Python `str.replace pat repl` (all non-overlapping occurrences, left to
right); only called with non-empty `pat` in the code being modelled. -/
def strReplace (pat repl : List Char) (s : List Char) : List Char :=
  match s with
  | [] => []
  | c :: cs =>
    if 0 < pat.length ∧ List.isPrefixOf pat (c :: cs) then
      repl ++ strReplace pat repl (cs.drop (pat.length - 1))
    else
      c :: strReplace pat repl cs
termination_by s.length
decreasing_by
  · simp only [List.length_cons]
    have := List.length_drop (pat.length - 1) cs
    omega
  · simp only [List.length_cons]
    omega

/-- Python `str.capitalize()`: first character upper-cased, the rest
lower-cased (ASCII fragment). -/
def pyCapitalize : List Char → List Char
  | [] => []
  | c :: cs => Char.toUpper c :: cs.map Char.toLower

/-- Python `", ".join` on a list of strings. -/
def joinComma (xs : List (List Char)) : List Char :=
  List.intercalate ", ".toList xs

/-- A token of the regex fragment used by the classifier: literal text,
`\s+`, `.+`, or an alternation of literal words. -/
inductive Tok where
  | lit (w : List Char)
  | ws
  | anyplus
  | alt (opts : List (List Char))
deriving DecidableEq

/-- Exact backtracking matcher for a token list against (a prefix of) `cs`,
anchored at the start of `cs`; trailing input is ignored, mirroring an
anchored `re.search`.  `\s+` and `.+` try every split, so greedy/lazy
distinctions do not arise; `.` excludes the newline, as in Python without
`re.DOTALL`. -/
def matchToks : List Tok → List Char → Bool
  | [], _ => true
  | Tok.lit w :: ts, cs => List.isPrefixOf w cs && matchToks ts (cs.drop w.length)
  | Tok.ws :: ts, cs =>
    match cs with
    | [] => false
    | c :: rest => isWsChar c && (matchToks ts rest || matchToks (Tok.ws :: ts) rest)
  | Tok.anyplus :: ts, cs =>
    match cs with
    | [] => false
    | c :: rest =>
      (c != Char.ofNat 10) && (matchToks ts rest || matchToks (Tok.anyplus :: ts) rest)
  | Tok.alt opts :: ts, cs =>
    opts.any (fun w => List.isPrefixOf w cs && matchToks ts (cs.drop w.length))
termination_by ts cs => (ts.length, cs.length)
decreasing_by all_goals first
  | exact Prod.Lex.left _ _ (by simp only [List.length_cons, List.length_drop]; omega)
  | exact Prod.Lex.right _ (by simp only [List.length_cons, List.length_drop]; omega)

/-- Unanchored `re.search`: try the anchored matcher at every suffix. -/
def searchToks (ts : List Tok) : List Char → Bool
  | [] => matchToks ts []
  | c :: cs => matchToks ts (c :: cs) || searchToks ts cs

/-- The ordered how-to pattern list of `QueryEngine.is_how_to_question`:
`^how\s+to\s+`, `^how\s+(do|can|would|should)\s+i\s+`,
`^how\s+(do|can|would|should)\s+you\s+`, `^what\'s\s+the\s+best\s+way\s+to\s+`,
`^what\s+is\s+the\s+process\s+for\s+`, `^how\s+do\s+i\s+set\s+up\s+`,
`^how\s+do\s+i\s+create\s+`. -/
def how_to_patterns : List (List Tok) :=
  [ [Tok.lit "how".toList, Tok.ws, Tok.lit "to".toList, Tok.ws],
    [Tok.lit "how".toList, Tok.ws,
      Tok.alt ["do".toList, "can".toList, "would".toList, "should".toList], Tok.ws,
      Tok.lit "i".toList, Tok.ws],
    [Tok.lit "how".toList, Tok.ws,
      Tok.alt ["do".toList, "can".toList, "would".toList, "should".toList], Tok.ws,
      Tok.lit "you".toList, Tok.ws],
    [Tok.lit ("what".toList ++ [apos] ++ "s".toList), Tok.ws, Tok.lit "the".toList, Tok.ws,
      Tok.lit "best".toList, Tok.ws, Tok.lit "way".toList, Tok.ws, Tok.lit "to".toList, Tok.ws],
    [Tok.lit "what".toList, Tok.ws, Tok.lit "is".toList, Tok.ws, Tok.lit "the".toList, Tok.ws,
      Tok.lit "process".toList, Tok.ws, Tok.lit "for".toList, Tok.ws],
    [Tok.lit "how".toList, Tok.ws, Tok.lit "do".toList, Tok.ws, Tok.lit "i".toList, Tok.ws,
      Tok.lit "set".toList, Tok.ws, Tok.lit "up".toList, Tok.ws],
    [Tok.lit "how".toList, Tok.ws, Tok.lit "do".toList, Tok.ws, Tok.lit "i".toList, Tok.ws,
      Tok.lit "create".toList, Tok.ws] ]

/-- `QueryEngine.is_how_to_question`: lower-case the query and return true as
soon as one of the anchored patterns matches (`re.search` with `^`). -/
def is_how_to_question (query : List Char) : Bool :=
  let query_lower := toLowerStr query
  how_to_patterns.any (fun p => matchToks p query_lower)

/-- The fixed, ordered list of known CDP product names. -/
def cdp_names : List (List Char) :=
  ["segment".toList, "mparticle".toList, "lytics".toList, "zeotap".toList]

/-- `QueryEngine.extract_cdp_name`: first product name occurring as a
substring of the lower-cased query, else `none`. -/
def extract_cdp_name (query : List Char) : Option (List Char) :=
  cdp_names.find? (fun cdp => substrIn cdp (toLowerStr query))

/-- The characters of the regex class `\w` (ASCII fragment). -/
def isWordChar (c : Char) : Bool :=
  c.isAlphanum || c = '_'

/-- One step of `re.sub(r'[^\w\s]', ' ', query)`. -/
def cleanChar (c : Char) : Char :=
  if isWordChar c || isWsChar c then c else ' '

/-- `re.sub(r'\s+', ' ', s)`: replace each maximal whitespace run by one
space. -/
def collapseWs : List Char → List Char
  | [] => []
  | c :: cs =>
    if isWsChar c then ' ' :: collapseWs (cs.dropWhile (fun d => isWsChar d))
    else c :: collapseWs cs
termination_by l => l.length
decreasing_by
  · simp only [List.length_cons]
    have := (List.dropWhile_sublist (l := cs) (p := fun d => isWsChar d)).length_le
    omega
  · simp only [List.length_cons]; omega

/-- `QueryEngine.preprocess_query`: punctuation to spaces, whitespace
collapsed, then stripped. -/
def preprocess_query (query : List Char) : List Char :=
  pyStrip (collapseWs (query.map cleanChar))

/-- One chunk record of `chunks_metadata.json` (the fields written by the
offline indexer). -/
structure Chunk where
  source : List Char
  url : List Char
  title : List Char
  chunk_text : List Char
  chunk_id : Nat
deriving DecidableEq

/-- A returned search result: a copy of a chunk together with the `score`
field added by `QueryEngine.search`. -/
structure SearchResult where
  chunk : Chunk
  score : ℚ
deriving DecidableEq

/-- The loaded state of `QueryEngine`: the term-weighting model (as the
projection `transform` it provides), the sparse row matrix, and the chunk
metadata list. -/
structure QueryEngine where
  vectorizer : List Char → List ℚ
  chunk_vectors : List (List ℚ)
  chunks : List Chunk

/-- Sparse-matrix-times-vector entry: `np.dot` of one row with the query
vector. -/
def dot (a b : List ℚ) : ℚ :=
  (List.zipWith (fun x y => x * y) a b).sum

/-- Python `sorted(pairs, key=lambda x: x[1], reverse=True)`: the stable
descending sort by score.  Python's `sorted` is specified to be stable, and a
stable sort by a total preorder is extensionally unique, so insertion sort
with the relation `snd b ≤ snd a` is an exact model. -/
def sortScored (pairs : List (Nat × ℚ)) : List (Nat × ℚ) :=
  List.insertionSort (fun a b => b.2 ≤ a.2) pairs

/-- Python truthiness of the `cdp_filter` argument (`None` and `""` are
falsy). -/
def truthyFilter : Option (List Char) → Bool
  | none => false
  | some s => !s.isEmpty

/-- The list comprehension `[(i, similarities[i]) for i in cdp_indices]`;
`none` models the `IndexError` raised by an out-of-range subscript. -/
def lookupSims (sims : List ℚ) : List Nat → Option (List (Nat × ℚ))
  | [] => some []
  | i :: is =>
    match sims.get? i with
    | none => none
    | some s => (lookupSims sims is).map (fun rest => (i, s) :: rest)

/-- The candidate-ranking part of `QueryEngine.search` (its `top_indices`
value): score every chunk, restrict to the filtered product when the filter
is truthy, sort descending by score and truncate to `top_k`. -/
def search_ranked (e : QueryEngine) (query : List Char) (top_k : Nat)
    (cdp_filter : Option (List Char)) : Option (List (Nat × ℚ)) :=
  let processed_query := preprocess_query query
  let query_vector := e.vectorizer processed_query
  let similarities := e.chunk_vectors.map (fun row => dot row query_vector)
  if truthyFilter cdp_filter then
    let f := cdp_filter.getD []
    let cdp_indices :=
      (e.chunks.enum.filter (fun ic => toLowerStr ic.2.source == toLowerStr f)).map Prod.fst
    (lookupSims similarities cdp_indices).map
      (fun cdp_similarities => (sortScored cdp_similarities).take top_k)
  else
    some ((sortScored similarities.enum).take top_k)

/-- The result-collection loop of `QueryEngine.search`: keep candidates with
score strictly above `0.1`, copying the chunk and adding the score;
`chunks[idx]` is only subscripted after the score test, as in the code. -/
def collectResults (chunks : List Chunk) : List (Nat × ℚ) → Option (List SearchResult)
  | [] => some []
  | (idx, score) :: rest =>
    if score > (1 : ℚ) / 10 then
      match chunks.get? idx with
      | none => none
      | some chunk =>
        (collectResults chunks rest).map (fun rs => { chunk := chunk, score := score } :: rs)
    else collectResults chunks rest

/-- `QueryEngine.search`. -/
def QueryEngine.search (e : QueryEngine) (query : List Char) (top_k : Nat)
    (cdp_filter : Option (List Char)) : Option (List SearchResult) :=
  (search_ranked e query top_k cdp_filter).bind
    (fun top_indices => collectResults e.chunks top_indices)

/-- The tagged result dictionaries produced by `QueryEngine.query` and
`CDPComparator.compare_cdps` (`type` key as the constructor). -/
inductive QueryOutcome where
  | not_how_to (message : List Char)
  | no_results (message : List Char)
  | results (cdp : Option (List Char)) (query : List Char) (results : List SearchResult)
  | comparison_error (message : List Char)
  | comparison (feature : List Char) (cdps : List (List Char))
      (comparison_data : List (List Char × List SearchResult))

/-- The fixed help message of the `not_how_to` outcome, verbatim. -/
def help_message : List Char :=
  "I".toList ++ [apos] ++
    ("m a CDP support agent. I can help answer how-to questions about Segment, " ++
     "mParticle, Lytics, and Zeotap. Please ask me questions like ").toList ++ [apos] ++
    "How do I set up a new source in Segment?".toList ++ [apos] ++
    " or ".toList ++ [apos] ++
    "How can I create a user profile in mParticle?".toList ++ [apos]

/-- The `no_results` message used when a product name was detected. -/
def no_results_cdp_message (query cdp : List Char) : List Char :=
  "I couldn".toList ++ [apos] ++ "t find specific information about how to ".toList ++
    pyStrip (strReplace "how to".toList [] (strReplace "how do i".toList [] (toLowerStr query))) ++
    " in ".toList ++ pyCapitalize cdp ++
    ". Could you try rephrasing your question or ask about a different feature?".toList

/-- The `no_results` message used when no product name was detected. -/
def no_results_generic_message : List Char :=
  "I couldn".toList ++ [apos] ++
    ("t find specific information about that. Could you specify which CDP " ++
     "(Segment, mParticle, Lytics, or Zeotap) you").toList ++ [apos] ++
    "re asking about?".toList

/-- `QueryEngine.query`: route a raw user query to the `not_how_to`,
`no_results` or `results` outcome. -/
def QueryEngine.query (e : QueryEngine) (q : List Char) : Option QueryOutcome :=
  if !is_how_to_question q then
    some (QueryOutcome.not_how_to help_message)
  else
    let cdp_name := extract_cdp_name q
    (e.search q 3 cdp_name).map (fun results =>
      if results.isEmpty then
        match cdp_name with
        | some cdp => QueryOutcome.no_results (no_results_cdp_message q cdp)
        | none => QueryOutcome.no_results no_results_generic_message
      else
        QueryOutcome.results cdp_name q results)

/-- `QueryEngine.load_index`: each artifact is `some` its parsed content or
`none` when the file is missing or its deserialization fails, in which case
the whole load (and hence the constructor) raises.  The loaded engine is
built from exactly the three artifacts; nothing else is checked. -/
def load_index (vectorizer : Option (List Char → List ℚ))
    (chunk_vectors : Option (List (List ℚ))) (chunks : Option (List Chunk)) :
    Option QueryEngine :=
  match vectorizer with
  | none => none
  | some v =>
    match chunk_vectors with
    | none => none
    | some m =>
      match chunks with
      | none => none
      | some c => some { vectorizer := v, chunk_vectors := m, chunks := c }

/-- The comparison marker patterns of `CDPComparator.is_comparison_question`:
`compare`, `difference between`, `how does .+ compare to`, `versus`, `vs`,
searched anywhere in the lower-cased text. -/
def comparison_patterns : List (List Tok) :=
  [ [Tok.lit "compare".toList],
    [Tok.lit "difference between".toList],
    [Tok.lit "how does ".toList, Tok.anyplus, Tok.lit " compare to".toList],
    [Tok.lit "versus".toList],
    [Tok.lit "vs".toList] ]

/-- `CDPComparator.is_comparison_question`. -/
def is_comparison_question (query : List Char) : Bool :=
  let query_lower := toLowerStr query
  comparison_patterns.any (fun p => searchToks p query_lower)

/-- `CDPComparator.extract_cdps_to_compare`: all known product names occurring
in the lower-cased text, in the fixed list order; `none` unless at least two
are found. -/
def extract_cdps_to_compare (query : List Char) : Option (List (List Char)) :=
  let mentioned_cdps := cdp_names.filter (fun cdp => substrIn cdp (toLowerStr query))
  if 2 ≤ mentioned_cdps.length then some mentioned_cdps else none

/-- The feature pattern table of `CDPComparator.extract_feature_to_compare`. -/
def feature_patterns : List (List Tok × List Char) :=
  [ ([Tok.lit "audience ".toList,
       Tok.alt ["creation".toList, "building".toList, "segmentation".toList]],
     "audience creation".toList),
    ([Tok.lit "data ".toList, Tok.alt ["integration".toList, "ingestion".toList]],
     "data integration".toList),
    ([Tok.lit "user ".toList, Tok.alt ["profiles".toList, "identification".toList]],
     "user profiles".toList),
    ([Tok.alt ["source".toList, "destination".toList], Tok.lit " ".toList,
       Tok.alt ["connection".toList, "integration".toList]],
     "connections".toList),
    ([Tok.lit "event ".toList, Tok.alt ["tracking".toList, "collection".toList]],
     "event tracking".toList),
    ([Tok.lit "privacy ".toList, Tok.alt ["compliance".toList, "management".toList]],
     "privacy".toList),
    ([Tok.lit "identity ".toList, Tok.alt ["resolution".toList, "matching".toList]],
     "identity resolution".toList) ]

/-- `CDPComparator.extract_feature_to_compare`: canonical label of the first
pattern matching anywhere in the lower-cased text. -/
def extract_feature_to_compare (query : List Char) : Option (List Char) :=
  (feature_patterns.find? (fun pf => searchToks pf.1 (toLowerStr query))).map Prod.snd

/-- The first `comparison_error` message (fewer than two products named). -/
def need_two_cdps_message : List Char :=
  ("I can compare different CDPs, but I need to know which ones you want to " ++
   "compare. Please mention at least two CDPs from Segment, mParticle, Lytics, " ++
   "and Zeotap.").toList

/-- The second `comparison_error` message (no feature recognised). -/
def need_feature_message (cdps : List (List Char)) : List Char :=
  "I can compare ".toList ++ joinComma cdps ++
    (", but I need to know which feature you want to compare. For example, you " ++
     "can ask about audience creation, data integration, user profiles, etc.").toList

/-- The third `comparison_error` message (no product produced any result). -/
def no_comparison_info_message (feature : List Char) (cdps : List (List Char)) : List Char :=
  "I couldn".toList ++ [apos] ++ "t find enough information to compare ".toList ++
    feature ++ " between ".toList ++ joinComma cdps ++
    ". Could you try asking about a different feature?".toList

/-- The synthesized per-product sub-query `f"how to {feature} in {cdp}"`. -/
def sub_query (feature cdp : List Char) : List Char :=
  "how to ".toList ++ feature ++ " in ".toList ++ cdp

/-- The per-product search loop of `CDPComparator.compare_cdps`: search each
product with `top_k=2` and that product as filter, keeping only non-empty
result lists (keyed by product, in iteration order). -/
def comparisonLoop (e : QueryEngine) (feature : List Char) :
    List (List Char) → Option (List (List Char × List SearchResult))
  | [] => some []
  | cdp :: rest =>
    match e.search (sub_query feature cdp) 2 (some cdp) with
    | none => none
    | some results =>
      (comparisonLoop e feature rest).map (fun tail =>
        if results.isEmpty then tail else (cdp, results) :: tail)

/-- `CDPComparator.compare_cdps`; the outer `Option` models a raised
exception, the inner one the Python `None` returned when the text is not a
comparison question. -/
def compare_cdps (e : QueryEngine) (q : List Char) : Option (Option QueryOutcome) :=
  if !is_comparison_question q then some none
  else
    match extract_cdps_to_compare q with
    | none => some (some (QueryOutcome.comparison_error need_two_cdps_message))
    | some cdps_to_compare =>
      match extract_feature_to_compare q with
      | none =>
        some (some (QueryOutcome.comparison_error (need_feature_message cdps_to_compare)))
      | some feature =>
        (comparisonLoop e feature cdps_to_compare).map (fun comparison_results =>
          if comparison_results.isEmpty then
            some (QueryOutcome.comparison_error
              (no_comparison_info_message feature cdps_to_compare))
          else
            some (QueryOutcome.comparison feature cdps_to_compare comparison_results))


/-! ### Helper lemmas about the search pipeline -/

/-- The strict order realised by the ranking step: score strictly greater, or
equal score and earlier corpus position. -/
def lexDesc (a b : Nat × ℚ) : Prop :=
  b.2 < a.2 ∨ (a.2 = b.2 ∧ a.1 < b.1)

lemma collectResults_sound (chunks : List Chunk) (l : List (Nat × ℚ)) :
    ∀ rs, collectResults chunks l = some rs →
      rs.length ≤ l.length ∧
        ∀ r ∈ rs, ∃ p ∈ l, chunks.get? p.1 = some r.chunk ∧ r.score = p.2 ∧
          (1 : ℚ) / 10 < r.score := by
  induction l with
  | nil =>
    intro rs h
    simp only [collectResults, Option.some.injEq] at h
    subst h
    simp
  | cons p rest ih =>
    intro rs h
    obtain ⟨idx, score⟩ := p
    by_cases hs : score > (1 : ℚ) / 10
    · rw [collectResults, if_pos hs] at h
      cases hg : chunks.get? idx with
      | none => rw [hg] at h; simp at h
      | some chunk =>
        rw [hg] at h
        rw [Option.map_eq_some'] at h
        obtain ⟨rs2, hrs2, rfl⟩ := h
        obtain ⟨hlen, hall⟩ := ih rs2 hrs2
        refine ⟨by simpa using Nat.succ_le_succ hlen, ?_⟩
        intro r hr
        rcases List.mem_cons.mp hr with rfl | hr
        · exact ⟨(idx, score), List.mem_cons_self _ _, hg, rfl, hs⟩
        · obtain ⟨q, hq, h1, h2, h3⟩ := hall r hr
          exact ⟨q, List.mem_cons_of_mem _ hq, h1, h2, h3⟩
    · rw [collectResults, if_neg hs] at h
      obtain ⟨hlen, hall⟩ := ih rs h
      refine ⟨Nat.le_succ_of_le hlen, ?_⟩
      intro r hr
      obtain ⟨q, hq, h1, h2, h3⟩ := hall r hr
      exact ⟨q, List.mem_cons_of_mem _ hq, h1, h2, h3⟩

lemma collectResults_isSome (chunks : List Chunk) (l : List (Nat × ℚ))
    (h : ∀ p ∈ l, p.1 < chunks.length) : (collectResults chunks l).isSome = true := by
  induction l with
  | nil => simp [collectResults]
  | cons p rest ih =>
    obtain ⟨idx, score⟩ := p
    have hidx : idx < chunks.length := h (idx, score) (List.mem_cons_self _ _)
    have hrest : ∀ p ∈ rest, p.1 < chunks.length :=
      fun p hp => h p (List.mem_cons_of_mem _ hp)
    by_cases hs : score > (1 : ℚ) / 10
    · rw [collectResults, if_pos hs]
      cases hg : chunks.get? idx with
      | none => exact absurd (List.get?_eq_none.mp hg) (Nat.not_le_of_lt hidx)
      | some chunk =>
        obtain ⟨rs, hrs⟩ := Option.isSome_iff_exists.mp (ih hrest)
        rw [hrs]
        simp
    · rw [collectResults, if_neg hs]
      exact ih hrest

lemma collectResults_pairwise (chunks : List Chunk) (R : ℚ → ℚ → Prop) (l : List (Nat × ℚ)) :
    ∀ rs, collectResults chunks l = some rs → l.Pairwise (fun a b => R a.2 b.2) →
      rs.Pairwise (fun a b => R a.score b.score) := by
  induction l with
  | nil =>
    intro rs h _
    simp only [collectResults, Option.some.injEq] at h
    subst h
    simp
  | cons p rest ih =>
    intro rs h hl
    obtain ⟨idx, score⟩ := p
    rw [List.pairwise_cons] at hl
    by_cases hs : score > (1 : ℚ) / 10
    · rw [collectResults, if_pos hs] at h
      cases hg : chunks.get? idx with
      | none => rw [hg] at h; simp at h
      | some chunk =>
        rw [hg] at h
        rw [Option.map_eq_some'] at h
        obtain ⟨rs2, hrs2, rfl⟩ := h
        refine List.Pairwise.cons ?_ (ih rs2 hrs2 hl.2)
        intro r hr
        obtain ⟨-, hall⟩ := collectResults_sound chunks rest rs2 hrs2
        obtain ⟨q, hq, -, h2, -⟩ := hall r hr
        have := hl.1 q hq
        simpa [h2] using this
    · rw [collectResults, if_neg hs] at h
      exact ih rs h hl.2

lemma lookupSims_map_fst (sims : List ℚ) (idxs : List Nat) :
    ∀ ps, lookupSims sims idxs = some ps → ps.map Prod.fst = idxs := by
  induction idxs with
  | nil =>
    intro ps h
    simp only [lookupSims, Option.some.injEq] at h
    subst h
    simp
  | cons i rest ih =>
    intro ps h
    rw [lookupSims] at h
    cases hg : sims.get? i with
    | none => rw [hg] at h; simp at h
    | some s =>
      rw [hg, Option.map_eq_some'] at h
      obtain ⟨ps2, hps2, rfl⟩ := h
      simp [ih ps2 hps2]

lemma lookupSims_isSome (sims : List ℚ) (idxs : List Nat)
    (h : ∀ i ∈ idxs, i < sims.length) : (lookupSims sims idxs).isSome = true := by
  induction idxs with
  | nil => simp [lookupSims]
  | cons i rest ih =>
    rw [lookupSims]
    cases hg : sims.get? i with
    | none =>
      exact absurd (List.get?_eq_none.mp hg)
        (Nat.not_le_of_lt (h i (List.mem_cons_self _ _)))
    | some s =>
      obtain ⟨ps, hps⟩ :=
        Option.isSome_iff_exists.mp (ih (fun j hj => h j (List.mem_cons_of_mem _ hj)))
      rw [hps]
      simp

lemma pairwise_fst_enumFrom {α : Type} (n : Nat) (l : List α) :
    (List.enumFrom n l).Pairwise (fun a b => a.1 < b.1) := by
  induction l generalizing n with
  | nil => simp
  | cons c cs ih =>
    refine List.Pairwise.cons (fun x hx => ?_) (ih (n + 1))
    have := List.le_fst_of_mem_enumFrom hx
    omega

lemma pairwise_fst_enum {α : Type} (l : List α) :
    l.enum.Pairwise (fun a b => a.1 < b.1) :=
  pairwise_fst_enumFrom 0 l

lemma pairwise_lexDesc_orderedInsert (x : Nat × ℚ) (l : List (Nat × ℚ))
    (hx : ∀ y ∈ l, x.1 < y.1) (hl : l.Pairwise lexDesc) :
    (List.orderedInsert (fun a b => b.2 ≤ a.2) x l).Pairwise lexDesc := by
  induction l with
  | nil => simp [List.orderedInsert, lexDesc]
  | cons b t ih =>
    rw [List.pairwise_cons] at hl
    rw [List.orderedInsert]
    by_cases hle : b.2 ≤ x.2
    · rw [if_pos hle]
      refine List.Pairwise.cons ?_ (List.Pairwise.cons hl.1 hl.2)
      intro z hz
      rcases List.mem_cons.mp hz with rfl | hz
      · rcases lt_or_eq_of_le hle with hlt | heq
        · exact Or.inl hlt
        · exact Or.inr ⟨heq.symm, hx z (List.mem_cons_self _ _)⟩
      · have hbz := hl.1 z hz
        have hzb : z.2 ≤ b.2 := by
          rcases hbz with hlt | ⟨heq, -⟩
          · exact le_of_lt hlt
          · exact le_of_eq heq.symm
        rcases lt_or_eq_of_le (le_trans hzb hle) with hlt | heq
        · exact Or.inl hlt
        · exact Or.inr ⟨heq.symm, hx z (List.mem_cons_of_mem _ hz)⟩
    · rw [if_neg hle]
      have hxb : x.2 < b.2 := lt_of_not_le hle
      refine List.Pairwise.cons ?_
        (ih (fun y hy => hx y (List.mem_cons_of_mem _ hy)) hl.2)
      intro z hz
      rcases (List.mem_orderedInsert _).mp hz with rfl | hz
      · exact Or.inl hxb
      · exact hl.1 z hz

lemma pairwise_lexDesc_sortScored (l : List (Nat × ℚ))
    (h : l.Pairwise (fun a b => a.1 < b.1)) : (sortScored l).Pairwise lexDesc := by
  induction l with
  | nil => simp [sortScored, List.insertionSort]
  | cons x t ih =>
    rw [List.pairwise_cons] at h
    rw [sortScored, List.insertionSort]
    refine pairwise_lexDesc_orderedInsert x _ ?_ (ih h.2)
    intro y hy
    exact h.1 y ((List.perm_insertionSort _ t).mem_iff.mp hy)

lemma mem_sortScored (l : List (Nat × ℚ)) (p : Nat × ℚ) (h : p ∈ sortScored l) : p ∈ l :=
  (List.perm_insertionSort _ l).mem_iff.mp h
lemma search_ranked_cases (e : QueryEngine) (q : List Char) (k : Nat)
    (f : Option (List Char)) (ps : List (Nat × ℚ)) (h : search_ranked e q k f = some ps) :
    ∃ cand, ps = (sortScored cand).take k ∧
      cand.Pairwise (fun a b => a.1 < b.1) ∧
      ∀ p ∈ cand, p.1 < e.chunks.length ∨ p.1 < e.chunk_vectors.length := by
  by_cases ht : truthyFilter f
  · simp only [search_ranked, if_pos ht] at h
    rw [Option.map_eq_some'] at h
    obtain ⟨pairs, hpairs, rfl⟩ := h
    have hfst := lookupSims_map_fst _ _ _ hpairs
    refine ⟨pairs, rfl, ?_, ?_⟩
    · have hidx : ((e.chunks.enum.filter
          (fun ic => toLowerStr ic.2.source == toLowerStr (f.getD []))).map
            Prod.fst).Pairwise (fun a b => a < b) := by
        rw [List.pairwise_map]
        exact (pairwise_fst_enum e.chunks).sublist (List.filter_sublist _)
      rw [← hfst, List.pairwise_map] at hidx
      exact hidx
    · intro p hp
      have : p.1 ∈ pairs.map Prod.fst := List.mem_map_of_mem Prod.fst hp
      rw [hfst] at this
      obtain ⟨ic, hic, hfst2⟩ := List.mem_map.mp this
      have := List.fst_lt_of_mem_enum (List.mem_of_mem_filter hic)
      exact Or.inl (hfst2 ▸ this)
  · simp only [search_ranked, if_neg ht, Option.some.injEq] at h
    refine ⟨_, h.symm, pairwise_fst_enum _, ?_⟩
    intro p hp
    have := List.fst_lt_of_mem_enum hp
    rw [List.length_map] at this
    exact Or.inr this

/-! ### Claim theorems -/

/-- C1: for every query, every `top_k` and every optional product filter, a
returned result sequence of `search` has length at most `top_k` and all its
scores are strictly above the `0.1` relevance floor. -/
theorem search_at_most_topk_and_above_floor (e : QueryEngine) (q : List Char) (k : Nat)
    (f : Option (List Char)) (rs : List SearchResult) (h : e.search q k f = some rs) :
    rs.length ≤ k ∧ ∀ r ∈ rs, (1 : ℚ) / 10 < r.score := by
  rw [QueryEngine.search, Option.bind_eq_some] at h
  obtain ⟨ps, hps, hc⟩ := h
  obtain ⟨hlen, hall⟩ := collectResults_sound e.chunks ps rs hc
  obtain ⟨cand, rfl, -, -⟩ := search_ranked_cases e q k f ps hps
  refine ⟨le_trans hlen ?_, fun r hr => (hall r hr).choose_spec.2.2.2⟩
  simp [List.length_take]

/-- C9: every result returned by `search` is a copy of a chunk stored in the
corpus (the corpus itself, a pure value here, is left untouched): its `chunk`
component is exactly the record at some index of `e.chunks`, extended only by
the separate `score` field of the `SearchResult` wrapper. -/
theorem search_results_copy_of_corpus (e : QueryEngine) (q : List Char) (k : Nat)
    (f : Option (List Char)) (rs : List SearchResult) (h : e.search q k f = some rs) :
    ∀ r ∈ rs, ∃ i, e.chunks.get? i = some r.chunk := by
  rw [QueryEngine.search, Option.bind_eq_some] at h
  obtain ⟨ps, -, hc⟩ := h
  obtain ⟨-, hall⟩ := collectResults_sound e.chunks ps rs hc
  intro r hr
  obtain ⟨p, -, h1, -, -⟩ := hall r hr
  exact ⟨p.1, h1⟩

/-- C4: the ranked candidate list of `search` (its `top_indices`) is ordered
by strictly decreasing score, with ties broken by increasing corpus position
(the stable tie-break), and the final result sequence is in descending score
order; this holds with and without a product filter. -/
theorem search_sorted_desc_stable (e : QueryEngine) (q : List Char) (k : Nat)
    (f : Option (List Char)) :
    (∀ ps, search_ranked e q k f = some ps → ps.Pairwise lexDesc) ∧
    (∀ rs, e.search q k f = some rs → rs.Pairwise fun a b => b.score ≤ a.score) := by
  have main : ∀ ps, search_ranked e q k f = some ps → ps.Pairwise lexDesc := by
    intro ps hps
    obtain ⟨cand, rfl, hpw, -⟩ := search_ranked_cases e q k f ps hps
    exact (pairwise_lexDesc_sortScored cand hpw).sublist (List.take_sublist _ _)
  refine ⟨main, ?_⟩
  intro rs h
  rw [QueryEngine.search, Option.bind_eq_some] at h
  obtain ⟨ps, hps, hc⟩ := h
  refine collectResults_pairwise e.chunks (fun a b => b ≤ a) ps rs hc ?_
  refine (main ps hps).imp ?_
  intro a b hab
  rcases hab with hlt | ⟨heq, -⟩
  · exact le_of_lt hlt
  · exact le_of_eq heq.symm

/-- C8: on an index whose matrix rows align one-to-one with the chunk list,
`search` never raises: for every query, `top_k` and filter (including a
filter matching no chunk) it returns a well-defined, possibly empty result
sequence. -/
theorem search_total_when_aligned (e : QueryEngine) (q : List Char) (k : Nat)
    (f : Option (List Char)) (h : e.chunk_vectors.length = e.chunks.length) :
    ∃ rs, e.search q k f = some rs := by
  rw [QueryEngine.search]
  by_cases ht : truthyFilter f
  · simp only [search_ranked, if_pos ht]
    have hb : ∀ i ∈ (e.chunks.enum.filter
        (fun ic => toLowerStr ic.2.source == toLowerStr (f.getD []))).map Prod.fst,
        i < (e.chunk_vectors.map
          (fun row => dot row (e.vectorizer (preprocess_query q)))).length := by
      intro i hi
      obtain ⟨ic, hic, rfl⟩ := List.mem_map.mp hi
      have := List.fst_lt_of_mem_enum (List.mem_of_mem_filter hic)
      rw [List.length_map, h]
      exact this
    obtain ⟨pairs, hpairs⟩ := Option.isSome_iff_exists.mp (lookupSims_isSome _ _ hb)
    rw [hpairs]
    simp only [Option.map_some', Option.some_bind]
    refine Option.isSome_iff_exists.mp (collectResults_isSome _ _ ?_)
    intro p hp
    have hmem : p ∈ pairs := mem_sortScored _ _ ((List.take_sublist _ _).mem hp)
    have : p.1 ∈ pairs.map Prod.fst := List.mem_map_of_mem Prod.fst hmem
    rw [lookupSims_map_fst _ _ _ hpairs] at this
    obtain ⟨ic, hic, hfst⟩ := List.mem_map.mp this
    exact hfst ▸ List.fst_lt_of_mem_enum (List.mem_of_mem_filter hic)
  · simp only [search_ranked, if_neg ht, Option.some_bind]
    refine Option.isSome_iff_exists.mp (collectResults_isSome _ _ ?_)
    intro p hp
    have hmem := mem_sortScored _ _ ((List.take_sublist _ _).mem hp)
    have := List.fst_lt_of_mem_enum hmem
    rw [List.length_map, h] at this
    exact this

/-- C5: whenever the input is not classified as a how-to question, `query`
returns the `not_how_to` outcome carrying the fixed help message verbatim
(whether or not the text would classify as a comparison). -/
theorem query_not_how_to_fixed_message (e : QueryEngine) (q : List Char)
    (h : is_how_to_question q = false) :
    e.query q = some (QueryOutcome.not_how_to help_message) := by
  simp [QueryEngine.query, h]

/-- C7: when fewer than two of the four known products occur in the text,
`extract_cdps_to_compare` returns `none`, and (when the text is a comparison
question) `compare_cdps` returns the `comparison_error` asking for at least
two products. -/
theorem too_few_cdps_comparison_error (e : QueryEngine) (q : List Char)
    (h : (cdp_names.filter fun c => substrIn c (toLowerStr q)).length < 2) :
    extract_cdps_to_compare q = none ∧
      (is_comparison_question q = true →
        compare_cdps e q =
          some (some (QueryOutcome.comparison_error need_two_cdps_message))) := by
  have hx : extract_cdps_to_compare q = none := by
    simp only [extract_cdps_to_compare]
    rw [if_neg]
    omega
  exact ⟨hx, fun hc => by simp [compare_cdps, hc, hx]⟩

/-- C2 (amended): loading succeeds exactly when all three artifacts load; a
missing or malformed artifact is fatal, but no row-count check is performed,
so a matrix/chunk misalignment is not detected at load time. -/
theorem load_index_some_iff_artifacts_present (v : Option (List Char → List ℚ))
    (m : Option (List (List ℚ))) (c : Option (List Chunk)) :
    (load_index v m c).isSome = true ↔
      v.isSome = true ∧ m.isSome = true ∧ c.isSome = true := by
  cases v <;> cases m <;> cases c <;> simp [load_index]

/-- A concrete chunk record used by the counterexamples and witnesses. -/
def sampleChunk : Chunk :=
  { source := "segment".toList, url := "u".toList, title := "t".toList,
    chunk_text := "x".toList, chunk_id := 0 }

/-- C2 counterexample: an index directory whose matrix has two rows but whose
metadata lists a single chunk loads successfully, so loading does not fail on
a row-count mismatch. -/
theorem load_index_ignores_row_mismatch :
    (load_index (some fun _ => []) (some [[1], [2]]) (some [sampleChunk])).isSome = true ∧
      ([[(1 : ℚ)], [2]] : List (List ℚ)).length ≠ [sampleChunk].length := by
  exact ⟨rfl, by decide⟩
/-! ### Concrete fixtures for the witnesses -/

/-- A second chunk record, later in the corpus. -/
def sampleChunk2 : Chunk :=
  { source := "lytics".toList, url := "u2".toList, title := "t2".toList,
    chunk_text := "y".toList, chunk_id := 1 }

/-- An engine with an empty corpus. -/
def emptyEngine : QueryEngine :=
  { vectorizer := fun _ => [], chunk_vectors := [], chunks := [] }

/-- An engine with a single chunk whose score against any query is `1`. -/
def oneChunkEngine : QueryEngine :=
  { vectorizer := fun _ => [1], chunk_vectors := [[1]], chunks := [sampleChunk] }

/-- An engine with two chunks that tie at score `1` against any query. -/
def twoChunkEngine : QueryEngine :=
  { vectorizer := fun _ => [1], chunk_vectors := [[1], [1]],
    chunks := [sampleChunk, sampleChunk2] }

/-- Witness for C1 at a concrete engine and query. -/
theorem search_at_most_topk_and_above_floor_witness :
    oneChunkEngine.search "q".toList 5 none =
        some [{ chunk := sampleChunk, score := 1 }] ∧
      ([({ chunk := sampleChunk, score := 1 } : SearchResult)].length ≤ 5 ∧
        ∀ r ∈ [({ chunk := sampleChunk, score := 1 } : SearchResult)],
          (1 : ℚ) / 10 < r.score) := by
  have h : oneChunkEngine.search "q".toList 5 none =
      some [{ chunk := sampleChunk, score := 1 }] := by
    simp [QueryEngine.search, search_ranked, oneChunkEngine, truthyFilter, dot, sortScored,
      List.insertionSort, List.orderedInsert, collectResults, sampleChunk]
    norm_num
  exact ⟨h, search_at_most_topk_and_above_floor _ _ _ _ _ h⟩

/-- Witness for C9 at a concrete engine and query. -/
theorem search_results_copy_of_corpus_witness :
    oneChunkEngine.search "q".toList 3 none =
        some [{ chunk := sampleChunk, score := 1 }] ∧
      ∀ r ∈ [({ chunk := sampleChunk, score := 1 } : SearchResult)],
        ∃ i, oneChunkEngine.chunks.get? i = some r.chunk := by
  have h : oneChunkEngine.search "q".toList 3 none =
      some [{ chunk := sampleChunk, score := 1 }] := by
    simp [QueryEngine.search, search_ranked, oneChunkEngine, truthyFilter, dot, sortScored,
      List.insertionSort, List.orderedInsert, collectResults, sampleChunk]
    norm_num
  exact ⟨h, search_results_copy_of_corpus _ _ _ _ _ h⟩

/-- Witness for C4: two chunks tie at score `1`; the ranked list keeps them in
corpus order and the result sequence is descending. -/
theorem search_sorted_desc_stable_witness :
    search_ranked twoChunkEngine "q".toList 5 none = some [(0, 1), (1, 1)] ∧
      ([((0 : Nat), (1 : ℚ)), (1, 1)].Pairwise lexDesc) ∧
      ([({ chunk := sampleChunk, score := 1 } : SearchResult),
          { chunk := sampleChunk2, score := 1 }].Pairwise fun a b => b.score ≤ a.score) := by
  have h1 : search_ranked twoChunkEngine "q".toList 5 none = some [(0, 1), (1, 1)] := by
    simp [search_ranked, twoChunkEngine, truthyFilter, dot, sortScored,
      List.insertionSort, List.orderedInsert]
  have h2 : twoChunkEngine.search "q".toList 5 none =
      some [{ chunk := sampleChunk, score := 1 }, { chunk := sampleChunk2, score := 1 }] := by
    simp [QueryEngine.search, search_ranked, twoChunkEngine, truthyFilter, dot, sortScored,
      List.insertionSort, List.orderedInsert, collectResults, sampleChunk, sampleChunk2]
    norm_num
    decide
  exact ⟨h1, (search_sorted_desc_stable twoChunkEngine "q".toList 5 none).1 _ h1,
    (search_sorted_desc_stable twoChunkEngine "q".toList 5 none).2 _ h2⟩

/-- Witness for C8: aligned index, filter matching no chunk. -/
theorem search_total_when_aligned_witness :
    oneChunkEngine.search "q".toList 5 (some "zeotap".toList) = some [] ∧
      ∃ rs, oneChunkEngine.search "q".toList 5 (some "zeotap".toList) = some rs :=
  ⟨by rfl, search_total_when_aligned oneChunkEngine "q".toList 5
    (some "zeotap".toList) (by rfl)⟩

/-- Witness for C5: a comparison-style text that is not a how-to question. -/
theorem query_not_how_to_fixed_message_witness :
    is_comparison_question "compare segment vs lytics".toList = true ∧
      emptyEngine.query "compare segment vs lytics".toList =
        some (QueryOutcome.not_how_to help_message) := by
  constructor
  · simp [is_comparison_question, comparison_patterns, searchToks, matchToks, toLowerStr,
      List.isPrefixOf]
  · refine query_not_how_to_fixed_message emptyEngine _ ?_
    simp [is_how_to_question, how_to_patterns, matchToks, toLowerStr, List.isPrefixOf,
      isWsChar, apos]

/-- Witness for C7: the bare text "vs". -/
theorem too_few_cdps_comparison_error_witness :
    (cdp_names.filter fun c => substrIn c (toLowerStr "vs".toList)).length < 2 ∧
      is_comparison_question "vs".toList = true ∧
      extract_cdps_to_compare "vs".toList = none ∧
      compare_cdps emptyEngine "vs".toList =
        some (some (QueryOutcome.comparison_error need_two_cdps_message)) := by
  have h : (cdp_names.filter fun c => substrIn c (toLowerStr "vs".toList)).length < 2 := by
    decide
  have hc : is_comparison_question "vs".toList = true := by
    simp [is_comparison_question, comparison_patterns, searchToks, matchToks, toLowerStr,
      List.isPrefixOf]
  obtain ⟨h1, h2⟩ := too_few_cdps_comparison_error emptyEngine "vs".toList h
  exact ⟨h, hc, h1, h2 hc⟩
/-! ### Declarative semantics of the regex fragment (for C3) -/

/-- Declarative, nondeterministic semantics of the token fragment:
`TokMatch ts cs` holds when the token list matches some prefix of `cs`
(anchored at its start), with `\\s+` consuming one or more whitespace
characters, `.+` one or more non-newline characters, and an alternation any
of its words. -/
inductive TokMatch : List Tok → List Char → Prop where
  | nil (cs : List Char) : TokMatch [] cs
  | lit (w : List Char) (ts : List Tok) (cs : List Char) :
      TokMatch ts cs → TokMatch (Tok.lit w :: ts) (w ++ cs)
  | wsOne (c : Char) (ts : List Tok) (cs : List Char) :
      isWsChar c = true → TokMatch ts cs → TokMatch (Tok.ws :: ts) (c :: cs)
  | wsMore (c : Char) (ts : List Tok) (cs : List Char) :
      isWsChar c = true → TokMatch (Tok.ws :: ts) cs → TokMatch (Tok.ws :: ts) (c :: cs)
  | anyOne (c : Char) (ts : List Tok) (cs : List Char) :
      c ≠ Char.ofNat 10 → TokMatch ts cs → TokMatch (Tok.anyplus :: ts) (c :: cs)
  | anyMore (c : Char) (ts : List Tok) (cs : List Char) :
      c ≠ Char.ofNat 10 → TokMatch (Tok.anyplus :: ts) cs →
        TokMatch (Tok.anyplus :: ts) (c :: cs)
  | alt (w : List Char) (opts : List (List Char)) (ts : List Tok) (cs : List Char) :
      w ∈ opts → TokMatch ts cs → TokMatch (Tok.alt opts :: ts) (w ++ cs)

lemma matchToks_eq_true_iff_aux : ∀ (n : Nat) (ts : List Tok) (cs : List Char),
    ts.length + cs.length ≤ n → (matchToks ts cs = true ↔ TokMatch ts cs) := by
  intro n
  induction n with
  | zero =>
    intro ts cs h
    obtain rfl : ts = [] := by
      cases ts with
      | nil => rfl
      | cons t ts => simp at h
    exact ⟨fun _ => TokMatch.nil cs, fun _ => by simp [matchToks]⟩
  | succ n ih =>
    intro ts cs hn
    cases ts with
    | nil => exact ⟨fun _ => TokMatch.nil cs, fun _ => by simp [matchToks]⟩
    | cons t ts =>
      cases t with
      | lit w =>
        constructor
        · intro h
          simp only [matchToks, Bool.and_eq_true] at h
          obtain ⟨hpre, hm⟩ := h
          obtain ⟨t2, rfl⟩ := List.isPrefixOf_iff_prefix.mp hpre
          rw [List.drop_left] at hm
          refine TokMatch.lit w ts t2 ((ih ts t2 ?_).mp hm)
          simp only [List.length_cons, List.length_append] at hn ⊢
          omega
        · intro h
          cases h with
          | lit _ _ cs2 hm =>
            simp only [matchToks, Bool.and_eq_true]
            refine ⟨List.isPrefixOf_iff_prefix.mpr (List.prefix_append _ _), ?_⟩
            rw [List.drop_left]
            refine (ih ts cs2 ?_).mpr hm
            simp only [List.length_cons, List.length_append] at hn ⊢
            omega
      | ws =>
        cases cs with
        | nil =>
          constructor
          · intro h; simp [matchToks] at h
          · intro h; cases h
        | cons c rest =>
          have m1 : ts.length + rest.length ≤ n := by
            simp only [List.length_cons] at hn; omega
          have m2 : (Tok.ws :: ts).length + rest.length ≤ n := by
            simp only [List.length_cons] at hn ⊢; omega
          constructor
          · intro h
            simp only [matchToks, Bool.and_eq_true, Bool.or_eq_true] at h
            obtain ⟨hw, h1 | h2⟩ := h
            · exact TokMatch.wsOne c ts rest hw ((ih ts rest m1).mp h1)
            · exact TokMatch.wsMore c ts rest hw ((ih _ rest m2).mp h2)
          · intro h
            cases h with
            | wsOne _ _ _ hw hm =>
              simp only [matchToks, Bool.and_eq_true, Bool.or_eq_true]
              exact ⟨hw, Or.inl ((ih ts rest m1).mpr hm)⟩
            | wsMore _ _ _ hw hm =>
              simp only [matchToks, Bool.and_eq_true, Bool.or_eq_true]
              exact ⟨hw, Or.inr ((ih _ rest m2).mpr hm)⟩
      | anyplus =>
        cases cs with
        | nil =>
          constructor
          · intro h; simp [matchToks] at h
          · intro h; cases h
        | cons c rest =>
          have m1 : ts.length + rest.length ≤ n := by
            simp only [List.length_cons] at hn; omega
          have m2 : (Tok.anyplus :: ts).length + rest.length ≤ n := by
            simp only [List.length_cons] at hn ⊢; omega
          constructor
          · intro h
            simp only [matchToks, Bool.and_eq_true, Bool.or_eq_true, bne_iff_ne, ne_eq] at h
            obtain ⟨hw, h1 | h2⟩ := h
            · exact TokMatch.anyOne c ts rest hw ((ih ts rest m1).mp h1)
            · exact TokMatch.anyMore c ts rest hw ((ih _ rest m2).mp h2)
          · intro h
            cases h with
            | anyOne _ _ _ hw hm =>
              simp only [matchToks, Bool.and_eq_true, Bool.or_eq_true, bne_iff_ne, ne_eq]
              exact ⟨hw, Or.inl ((ih ts rest m1).mpr hm)⟩
            | anyMore _ _ _ hw hm =>
              simp only [matchToks, Bool.and_eq_true, Bool.or_eq_true, bne_iff_ne, ne_eq]
              exact ⟨hw, Or.inr ((ih _ rest m2).mpr hm)⟩
      | alt opts =>
        constructor
        · intro h
          simp only [matchToks, List.any_eq_true, Bool.and_eq_true] at h
          obtain ⟨w, hw, hpre, hm⟩ := h
          obtain ⟨t2, rfl⟩ := List.isPrefixOf_iff_prefix.mp hpre
          rw [List.drop_left] at hm
          refine TokMatch.alt w opts ts t2 hw ((ih ts t2 ?_).mp hm)
          simp only [List.length_cons, List.length_append] at hn ⊢
          omega
        · intro h
          cases h with
          | alt w _ _ cs2 hw hm =>
            simp only [matchToks, List.any_eq_true, Bool.and_eq_true]
            refine ⟨w, hw, List.isPrefixOf_iff_prefix.mpr (List.prefix_append _ _), ?_⟩
            rw [List.drop_left]
            refine (ih ts cs2 ?_).mpr hm
            simp only [List.length_cons, List.length_append] at hn ⊢
            omega

/-- The executable backtracking matcher agrees with the declarative
semantics. -/
lemma matchToks_eq_true_iff (ts : List Tok) (cs : List Char) :
    matchToks ts cs = true ↔ TokMatch ts cs :=
  matchToks_eq_true_iff_aux (ts.length + cs.length) ts cs le_rfl
/-- C3 (amended): `is_how_to` returns true iff some pattern in the fixed
ordered list matches, case-insensitively, anchored at the start of the
UNTRIMMED text (declaratively, via `TokMatch`); the text is not trimmed, so
prepending any whitespace character defeats every pattern and yields false. -/
theorem is_how_to_iff_anchored_untrimmed (q : List Char) :
    (is_how_to_question q = true ↔ ∃ p ∈ how_to_patterns, TokMatch p (toLowerStr q)) ∧
      ∀ c, isWsChar c = true → is_how_to_question (c :: q) = false := by
  constructor
  · simp only [is_how_to_question, List.any_eq_true]
    constructor
    · rintro ⟨p, hp, hm⟩
      exact ⟨p, hp, (matchToks_eq_true_iff p (toLowerStr q)).mp hm⟩
    · rintro ⟨p, hp, hm⟩
      exact ⟨p, hp, (matchToks_eq_true_iff p (toLowerStr q)).mpr hm⟩
  · intro c hc
    have hcs : c = ' ' ∨ c = Char.ofNat 9 ∨ c = Char.ofNat 10 ∨ c = Char.ofNat 13 ∨
        c = Char.ofNat 11 ∨ c = Char.ofNat 12 := by
      simp only [isWsChar, Bool.or_eq_true, decide_eq_true_eq] at hc
      tauto
    obtain rfl | rfl | rfl | rfl | rfl | rfl := hcs <;>
      simp [is_how_to_question, how_to_patterns, toLowerStr, matchToks, List.isPrefixOf,
        apos, Char.toLower]

/-- C3 counterexample: the text " how to create a source" (one leading
space) trims to a string starting with a how-to phrasing, yet
`is_how_to_question` classifies the trimmed form as how-to and the original
as not — matching is anchored at the untrimmed start. -/
theorem is_how_to_ignores_leading_whitespace :
    pyStrip " how to create a source".toList = "how to create a source".toList ∧
      is_how_to_question "how to create a source".toList = true ∧
      is_how_to_question " how to create a source".toList = false := by
  refine ⟨by decide, ?_, ?_⟩ <;>
    simp [is_how_to_question, how_to_patterns, matchToks, toLowerStr, isWsChar,
      List.isPrefixOf, apos]

/-- Witness for C3 at a concrete text and whitespace character. -/
theorem is_how_to_iff_anchored_untrimmed_witness :
    (is_how_to_question "how to x".toList = true ↔
      ∃ p ∈ how_to_patterns, TokMatch p (toLowerStr "how to x".toList)) ∧
      is_how_to_question (' ' :: "how to x".toList) = false :=
  ⟨(is_how_to_iff_anchored_untrimmed "how to x".toList).1,
    (is_how_to_iff_anchored_untrimmed "how to x".toList).2 ' ' (by decide)⟩
lemma comparisonLoop_sound (e : QueryEngine) (feature : List Char)
    (cdps : List (List Char)) :
    ∀ data, comparisonLoop e feature cdps = some data →
      (data.map Prod.fst).Sublist cdps ∧
        (∀ p ∈ data, p.1 ∈ cdps ∧
          e.search (sub_query feature p.1) 2 (some p.1) = some p.2 ∧ p.2 ≠ []) ∧
        ∀ cdp ∈ cdps, ∀ rs, e.search (sub_query feature cdp) 2 (some cdp) = some rs →
          rs ≠ [] → cdp ∈ data.map Prod.fst := by
  induction cdps with
  | nil =>
    intro data h
    simp only [comparisonLoop, Option.some.injEq] at h
    subst h
    simp
  | cons cdp rest ih =>
    intro data h
    rw [comparisonLoop] at h
    cases hs : e.search (sub_query feature cdp) 2 (some cdp) with
    | none => rw [hs] at h; simp at h
    | some results =>
      rw [hs, Option.map_eq_some'] at h
      obtain ⟨tail, htail, rfl⟩ := h
      obtain ⟨hsub, hall, hcov⟩ := ih tail htail
      by_cases hre : results.isEmpty
      · rw [if_pos hre]
        have hres_nil : results = [] := List.isEmpty_iff.mp hre
        refine ⟨hsub.cons cdp, ?_, ?_⟩
        · intro p hp
          obtain ⟨h1, h2, h3⟩ := hall p hp
          exact ⟨List.mem_cons_of_mem _ h1, h2, h3⟩
        · intro c hc rs hrs hne
          rcases List.mem_cons.mp hc with rfl | hc
          · rw [hs] at hrs
            cases hrs
            exact absurd hres_nil hne
          · exact hcov c hc rs hrs hne
      · rw [if_neg hre]
        refine ⟨?_, ?_, ?_⟩
        · simpa using hsub.cons₂ cdp
        · intro p hp
          rcases List.mem_cons.mp hp with rfl | hp
          · exact ⟨List.mem_cons_self _ _, hs, fun hnil => hre (List.isEmpty_iff.mpr hnil)⟩
          · obtain ⟨h1, h2, h3⟩ := hall p hp
            exact ⟨List.mem_cons_of_mem _ h1, h2, h3⟩
        · intro c hc rs hrs hne
          rcases List.mem_cons.mp hc with rfl | hc
          · simp
          · simpa using Or.inr (hcov c hc rs hrs hne)

/-- C6: when the text passes the comparison guard, names at least two
products and a recognised feature, `compare_cdps` searches
`"how to {feature} in {cdp}"` with `top_k = 2` and filter `cdp` for each
extracted product; the result map keys are, in order, exactly the products
whose search was non-empty (a sublist of the full list), and the outcome is
`comparison` carrying the FULL product list — or `comparison_error` when the
map is empty. -/
theorem compare_cdps_subquery_and_map (e : QueryEngine) (q feature : List Char)
    (cdps : List (List Char)) (data : List (List Char × List SearchResult))
    (hc : is_comparison_question q = true)
    (hcdps : extract_cdps_to_compare q = some cdps)
    (hfeat : extract_feature_to_compare q = some feature)
    (hloop : comparisonLoop e feature cdps = some data) :
    (data.map Prod.fst).Sublist cdps ∧
      (∀ p ∈ data, p.1 ∈ cdps ∧
        e.search (sub_query feature p.1) 2 (some p.1) = some p.2 ∧ p.2 ≠ []) ∧
      (∀ cdp ∈ cdps, ∀ rs, e.search (sub_query feature cdp) 2 (some cdp) = some rs →
        rs ≠ [] → cdp ∈ data.map Prod.fst) ∧
      compare_cdps e q = some (some (if data.isEmpty then
          QueryOutcome.comparison_error (no_comparison_info_message feature cdps)
        else QueryOutcome.comparison feature cdps data)) := by
  obtain ⟨h1, h2, h3⟩ := comparisonLoop_sound e feature cdps data hloop
  refine ⟨h1, h2, h3, ?_⟩
  simp only [compare_cdps, hc, Bool.not_true, Bool.false_eq_true, if_false, hcdps, hfeat,
    hloop, Option.map_some', Option.some.injEq, List.isEmpty_iff]
  split <;> rfl

/-- Witness for C6: a concrete comparison query over an empty corpus, where
both product searches are empty and the outcome degrades to the error. -/
theorem compare_cdps_subquery_and_map_witness :
    is_comparison_question "compare audience creation segment lytics".toList = true ∧
      extract_cdps_to_compare "compare audience creation segment lytics".toList =
        some ["segment".toList, "lytics".toList] ∧
      extract_feature_to_compare "compare audience creation segment lytics".toList =
        some "audience creation".toList ∧
      comparisonLoop emptyEngine "audience creation".toList
        ["segment".toList, "lytics".toList] = some [] ∧
      compare_cdps emptyEngine "compare audience creation segment lytics".toList =
        some (some (QueryOutcome.comparison_error
          (no_comparison_info_message "audience creation".toList
            ["segment".toList, "lytics".toList]))) := by
  have hc : is_comparison_question "compare audience creation segment lytics".toList = true := by
    simp [is_comparison_question, comparison_patterns, searchToks, matchToks, toLowerStr,
      List.isPrefixOf]
  have hcdps : extract_cdps_to_compare "compare audience creation segment lytics".toList =
      some ["segment".toList, "lytics".toList] := by decide
  have hfeat : extract_feature_to_compare "compare audience creation segment lytics".toList =
      some "audience creation".toList := by
    simp [extract_feature_to_compare, feature_patterns, searchToks, matchToks, toLowerStr,
      List.isPrefixOf]
  have hloop : comparisonLoop emptyEngine "audience creation".toList
      ["segment".toList, "lytics".toList] = some [] := by rfl
  have main := compare_cdps_subquery_and_map emptyEngine
    "compare audience creation segment lytics".toList "audience creation".toList
    ["segment".toList, "lytics".toList] [] hc hcdps hfeat hloop
  exact ⟨hc, hcdps, hfeat, hloop, by simpa using main.2.2.2⟩
/-! ### Idempotence of query normalization (for C10) -/

lemma cleanChar_idem (c : Char) : cleanChar (cleanChar c) = cleanChar c := by
  by_cases h : isWordChar c || isWsChar c
  · simp only [cleanChar, if_pos h]
  · simp only [cleanChar, if_neg h]
    rfl

/-- The post-whitespace adjacency invariant: no two adjacent characters are
both whitespace. -/
def noWsRun (a b : Char) : Prop :=
  isWsChar a = false ∨ isWsChar b = false

lemma head_dropWhile_not (p : Char → Bool) (l : List Char) :
    ∀ d, (l.dropWhile p).head? = some d → p d = false := by
  induction l with
  | nil => intro d h; simp at h
  | cons c cs ih =>
    intro d h
    by_cases hp : p c
    · rw [List.dropWhile_cons, if_pos hp] at h
      exact ih d h
    · rw [List.dropWhile_cons, if_neg hp] at h
      simp only [List.head?_cons, Option.some.injEq] at h
      subst h
      exact Bool.eq_false_iff.mpr hp

lemma dropWhile_eq_self_of_head (p : Char → Bool) (m : List Char)
    (h : ∀ d, m.head? = some d → p d = false) : m.dropWhile p = m := by
  cases m with
  | nil => rfl
  | cons c cs =>
    rw [List.dropWhile_cons, if_neg]
    simp [h c rfl]

lemma head?_collapseWs (l : List Char)
    (h : ∀ d, l.head? = some d → isWsChar d = false) : (collapseWs l).head? = l.head? := by
  cases l with
  | nil => simp [collapseWs]
  | cons c cs =>
    rw [collapseWs, if_neg (by simp [h c rfl])]
    rfl

lemma mem_collapseWs (l : List Char) (c : Char) (h : c ∈ collapseWs l) :
    c = ' ' ∨ (c ∈ l ∧ isWsChar c = false) := by
  induction l using collapseWs.induct with
  | case1 => simp [collapseWs] at h
  | case2 d cs hd ih =>
    rw [collapseWs, if_pos hd] at h
    rcases List.mem_cons.mp h with rfl | h2
    · exact Or.inl rfl
    · rcases ih h2 with h3 | ⟨h3, h4⟩
      · exact Or.inl h3
      · exact Or.inr ⟨List.mem_cons_of_mem _
          ((List.dropWhile_sublist _).mem h3), h4⟩
  | case3 d cs hd ih =>
    rw [collapseWs, if_neg hd] at h
    rcases List.mem_cons.mp h with rfl | h2
    · exact Or.inr ⟨List.mem_cons_self _ _, Bool.eq_false_iff.mpr hd⟩
    · rcases ih h2 with h3 | ⟨h3, h4⟩
      · exact Or.inl h3
      · exact Or.inr ⟨List.mem_cons_of_mem _ h3, h4⟩

lemma chain'_collapseWs (l : List Char) : (collapseWs l).Chain' noWsRun := by
  induction l using collapseWs.induct with
  | case1 => simp [collapseWs]
  | case2 d cs hd ih =>
    rw [collapseWs, if_pos hd]
    rw [List.chain'_cons']
    refine ⟨?_, ih⟩
    intro h hh
    rw [head?_collapseWs _ (head_dropWhile_not _ cs)] at hh
    exact Or.inr (head_dropWhile_not _ cs h hh)
  | case3 d cs hd ih =>
    rw [collapseWs, if_neg hd]
    rw [List.chain'_cons']
    exact ⟨fun h _ => Or.inl (Bool.eq_false_iff.mpr hd), ih⟩

lemma chain'_dropWhile (p : Char → Bool) (l : List Char) (h : l.Chain' noWsRun) :
    (l.dropWhile p).Chain' noWsRun := by
  have := List.takeWhile_append_dropWhile p l
  rw [← this] at h
  exact h.right_of_append

lemma chain'_reverse_noWsRun (l : List Char) (h : l.Chain' noWsRun) :
    l.reverse.Chain' noWsRun := by
  rw [List.chain'_reverse]
  exact h.imp fun a b hab => hab.symm

lemma chain'_pyStrip (l : List Char) (h : l.Chain' noWsRun) :
    (pyStrip l).Chain' noWsRun :=
  chain'_reverse_noWsRun _
    (chain'_dropWhile _ _ (chain'_reverse_noWsRun _ (chain'_dropWhile _ _ h)))

lemma mem_pyStrip (l : List Char) (c : Char) (h : c ∈ pyStrip l) : c ∈ l := by
  rw [pyStrip, List.mem_reverse] at h
  have h2 := (List.dropWhile_sublist _).mem h
  rw [List.mem_reverse] at h2
  exact (List.dropWhile_sublist _).mem h2

lemma collapseWs_eq_self (l : List Char) (h1 : l.Chain' noWsRun)
    (h2 : ∀ c ∈ l, isWsChar c = true → c = ' ') : collapseWs l = l := by
  induction l with
  | nil => simp [collapseWs]
  | cons c cs ih =>
    rw [List.chain'_cons'] at h1
    by_cases hc : isWsChar c
    · have hcsp : c = ' ' := h2 c (List.mem_cons_self _ _) hc
      have hdrop : cs.dropWhile (fun d => isWsChar d) = cs := by
        refine dropWhile_eq_self_of_head _ _ ?_
        intro d hd
        rcases h1.1 d hd with hl | hr
        · rw [hc] at hl; cases hl
        · exact hr
      rw [collapseWs, if_pos hc, hdrop,
        ih h1.2 (fun d hd hw => h2 d (List.mem_cons_of_mem _ hd) hw), hcsp]
    · rw [collapseWs, if_neg hc,
        ih h1.2 (fun d hd hw => h2 d (List.mem_cons_of_mem _ hd) hw)]

lemma head?_of_prefix_ne_nil (p l : List Char) (h : p.IsPrefix l) (hp : p ≠ []) :
    p.head? = l.head? := by
  obtain ⟨t, rfl⟩ := h
  cases p with
  | nil => exact absurd rfl hp
  | cons c cs => rfl

lemma pyStrip_idempotent (l : List Char) : pyStrip (pyStrip l) = pyStrip l := by
  set w := fun c => isWsChar c with hw
  set A := l.dropWhile w with hA
  set B := A.reverse.dropWhile w with hB
  have hps : pyStrip l = B.reverse := rfl
  have hBpre : B.reverse.IsPrefix A := by
    have hsuf : B.IsSuffix A.reverse := List.dropWhile_suffix w
    have := hsuf.reverse
    rwa [List.reverse_reverse] at this
  by_cases hBnil : B.reverse = []
  · rw [hps, hBnil]
    rfl
  · have hhead : ∀ d, B.reverse.head? = some d → w d = false := by
      intro d hd
      rw [head?_of_prefix_ne_nil _ _ hBpre hBnil] at hd
      exact head_dropWhile_not w l d hd
    have h1 : B.reverse.dropWhile w = B.reverse := dropWhile_eq_self_of_head w _ hhead
    have h2 : B.dropWhile w = B := by
      refine dropWhile_eq_self_of_head w _ ?_
      intro d hd
      exact head_dropWhile_not w A.reverse d hd
    rw [hps]
    show ((B.reverse.dropWhile w).reverse.dropWhile w).reverse = B.reverse
    rw [h1, List.reverse_reverse, h2]

lemma map_fix_eq_self (f : Char → Char) (l : List Char) (h : ∀ c ∈ l, f c = c) :
    l.map f = l := by
  induction l with
  | nil => rfl
  | cons c cs ih =>
    rw [List.map_cons, h c (List.mem_cons_self _ _),
      ih (fun d hd => h d (List.mem_cons_of_mem _ hd))]

/-- C10: query normalization is idempotent — applying `preprocess_query`
twice yields the same string as applying it once. -/
theorem preprocess_query_idempotent (q : List Char) :
    preprocess_query (preprocess_query q) = preprocess_query q := by
  have hx : preprocess_query q = pyStrip (collapseWs (q.map cleanChar)) := rfl
  set y := collapseWs (q.map cleanChar) with hy
  set x := pyStrip y with hxy
  have hmem : ∀ c ∈ x, c = ' ' ∨ (c ∈ q.map cleanChar ∧ isWsChar c = false) :=
    fun c hc => mem_collapseWs _ c (mem_pyStrip _ c hc)
  have hfix : ∀ c ∈ x, cleanChar c = c := by
    intro c hc
    rcases hmem c hc with rfl | ⟨h1, -⟩
    · rfl
    · obtain ⟨d, -, rfl⟩ := List.mem_map.mp h1
      exact cleanChar_idem d
  have hws : ∀ c ∈ x, isWsChar c = true → c = ' ' := by
    intro c hc hwc
    rcases hmem c hc with rfl | ⟨-, h2⟩
    · rfl
    · rw [hwc] at h2; cases h2
  have hchain : x.Chain' noWsRun := chain'_pyStrip _ (chain'_collapseWs _)
  calc preprocess_query x = pyStrip (collapseWs (x.map cleanChar)) := rfl
    _ = pyStrip (collapseWs x) := by rw [map_fix_eq_self cleanChar x hfix]
    _ = pyStrip x := by rw [collapseWs_eq_self x hchain hws]
    _ = x := by rw [hxy, pyStrip_idempotent]

end CDP

